import Mathlib

/-!
VerifyBucketWork: verification of a downloaded bucket file.

A shallow embedding of `src/historywork/VerifyBucketWork.cpp`.

The work item is polled by a scheduler (`onRun`).  A poll of a task that is
not yet done posts a background job (`spawnVerifier`); the job hashes the
bucket file, compares the digest with the expected one and posts a completion
callback to the main thread; the callback records the outcome in the task
(when the task still exists); a poll of a done task either adopts the bucket
and reports success or reports failure.

Threads are modelled by two explicit queues of posted closures and a step
function that runs one of them (or one poll) at a time.  Sequences of
`Action` leave the files alone; sequences of `Event` also let the environment
change a file between two steps.  Log output is not modelled.
-/

namespace stellar

/-! ## Data model -/

/-- One octet of a file or digest. -/
abbrev Byte := Fin 256

/-- The type `uint256` of the source: an opaque array of bytes, compared
bytewise by `==`. -/
abbrev uint256 := List Byte

/-- The values of `BasicWork::State` that `onRun` returns. -/
inductive State
  | WORK_WAITING
  | WORK_SUCCESS
  | WORK_FAILURE
  deriving DecidableEq, Repr

/-- An `asio::error_code`: an integer value, zero meaning "no error". -/
structure error_code where
  value : Nat
  deriving DecidableEq, Repr

/-- The contextual conversion `if (ec)`: true when an error is set. -/
def error_code.isSet (ec : error_code) : Bool := ec.value != 0

/-- A default-constructed `error_code` (`asio::error_code ec;`). -/
def error_code.none : error_code := ⟨0⟩

/-- The value `std::make_error_code(std::errc::io_error)` (EIO). -/
def io_error : error_code := ⟨5⟩

/-! ## The file system and `std::ifstream` -/

/-- What the file system holds under one name: nothing that can be opened,
or a file with its content and, optionally, the number of bytes after which
the device fails to deliver more (a read error; it is met only when it lies
before the end of the content). -/
inductive FileState
  | unopenable
  | file (content : List Byte) (readErrorAfter : Option Nat)

/-- The file system: a state for every name. -/
abbrev FileSystem := String → FileState

/-- A `std::ifstream`.  `failed` is `failbit || badbit`, so the conversion
`while (in)` is `!failed`. -/
structure ifstream where
  pending : List Byte
  readErrorAfter : Option Nat
  failed : Bool
  gcount : Nat

/-- The constructor `std::ifstream in(filename, std::ifstream::binary)`:
a failed open sets `failbit`. -/
def ifstream.openFile (fs : FileSystem) (filename : String) : ifstream :=
  match fs filename with
  | FileState.unopenable => ⟨[], Option.none, true, 0⟩
  | FileState.file content e => ⟨content, e, false, 0⟩

/-- The number of bytes the stream can still deliver before end-of-file or a
device error. -/
def ifstream.available (s : ifstream) : Nat :=
  match s.readErrorAfter with
  | Option.none => s.pending.length
  | Option.some k => min k s.pending.length

/-- The call `in.read(buf, n)`: returns the stream afterwards and the first
`gcount` bytes of `buf`.  When `n` bytes can be delivered they are extracted.
When the device fails inside this call, `badbit` is set and `gcount` stays 0:
the bytes that arrived in this call are not handed over.  When the end of the
file comes first, the stream fails (`eofbit` and `failbit`) and `gcount` is
the number of bytes that were left.  On a stream that already failed nothing
is extracted. -/
def ifstream.read (s : ifstream) (n : Nat) : ifstream × List Byte :=
  if s.failed then
    ({ s with gcount := 0 }, [])
  else if n ≤ s.available then
    ({ pending := s.pending.drop n
       readErrorAfter := s.readErrorAfter.map (fun k => k - n)
       failed := false
       gcount := n }, s.pending.take n)
  else if s.available < s.pending.length then
    ({ s with failed := true, gcount := 0 }, [])
  else
    ({ pending := s.pending.drop s.available
       readErrorAfter := s.readErrorAfter.map (fun k => k - s.available)
       failed := true
       gcount := s.available }, s.pending.take s.available)

/-! ## The streaming hasher -/

/-- Modelled from the spec: the streaming hasher of `crypto/SHA.h`, which is
not part of the sources.  The spec's `HashFunction.streamingHash()` offers
`update(bytes)` and `finalize()`; the hasher is a pure function of the bytes
streamed into it.  The state records every slice passed to `add`, in order. -/
structure SHA256 where
  added : List (List Byte)

/-- The call `SHA256::create()`: a hasher that has seen nothing. -/
def SHA256.create : SHA256 := ⟨[]⟩

/-- The call `hasher->add(slice)`. -/
def SHA256.add (h : SHA256) (slice : List Byte) : SHA256 := ⟨h.added ++ [slice]⟩

/-- The call `hasher->finish()`: the one-shot hash `sha256` of all bytes
streamed so far. -/
def SHA256.finish (sha256 : List Byte → uint256) (h : SHA256) : uint256 :=
  sha256 h.added.flatten

/-- The size of `char buf[4096]`. -/
def bufSize : Nat := 4096

/-- The loop `while (in) { in.read(buf, n); hasher->add(ByteSlice(buf,
in.gcount())); }` for a buffer of `n > 0` bytes: returns the stream and the
hasher when the loop is left. -/
def readLoop (n : Nat) (hn : 0 < n) (s : ifstream) (hasher : SHA256) : ifstream × SHA256 :=
  if s.failed = true then
    (s, hasher)
  else
    readLoop n hn (s.read n).1 (hasher.add (s.read n).2)
termination_by s.pending.length + (if s.failed then 0 else 1)
decreasing_by
  rename_i hs
  have hs2 : s.failed = false := by simpa using hs
  have hav : s.available ≤ s.pending.length := by
    unfold ifstream.available
    cases s.readErrorAfter <;> simp
  by_cases h : n ≤ s.available
  · simp [ifstream.read, hs2, h]
    omega
  · by_cases he : s.available < s.pending.length
    · simp [ifstream.read, hs2, h, he]
    · simp [ifstream.read, hs2, h, he]
      omega

/-- The digest the background job computes for `filename` with a buffer of
`n` bytes: open the stream, run the read loop on a new hasher, finish. -/
def hashFile (sha256 : List Byte → uint256) (n : Nat) (hn : 0 < n) (fs : FileSystem)
    (filename : String) : uint256 :=
  (readLoop n hn (ifstream.openFile fs filename) SHA256.create).2.finish sha256

/-! ## Collaborators, the task and the world around it -/

/-- The functions of other modules that the file calls and whose code is not
part of the sources: the one-shot SHA-256 that the streaming hasher computes,
`binToHex` of `crypto/Hex.h`, and `BucketManager::adoptFileAsBucket`, which
maps the manager's state, a file name, a hash and two counts to a bucket
handle and a new manager state. -/
structure Collaborators (σ β : Type) where
  sha256 : List Byte → uint256
  binToHex : uint256 → String
  adoptFileAsBucket : σ → String → uint256 → Nat → Nat → β × σ

/-- The closure that `spawnVerifier` posts to the background thread; it
captures `filename` and `hash` by value. -/
structure VerifierJob where
  filename : String
  hash : uint256
  deriving DecidableEq, Repr

/-- The closure that the background job posts to the main thread
("VerifyBucket: finish"); it captures the outcome `ec` (and the weak pointer
to the task). -/
structure FinishCallback where
  ec : error_code
  deriving DecidableEq, Repr

/-- The part of `Application` the file uses: the bucket manager, the two
meters `history.verify-bucket.success` and `.failure`, and the closures
posted to the background and main threads and not yet run.  `adoptCalls`
logs the arguments of every call of `adoptFileAsBucket`, `wakeUps` counts the
calls of `BasicWork::wakeUp`. -/
structure Application (σ : Type) where
  bucketManager : σ
  adoptCalls : List (String × uint256)
  verifyBucketSuccess : Nat
  verifyBucketFailure : Nat
  backgroundThread : List VerifierJob
  mainThread : List FinishCallback
  wakeUps : Nat

/-- The members of `VerifyBucketWork` that belong to the task itself.
`mBuckets` is a reference to a map owned by the caller and the meters are
references into the application; both live in `World`. -/
structure VerifyBucketWork where
  mBucketFile : String
  mHash : uint256
  mDone : Bool
  mEc : error_code
  deriving DecidableEq, Repr

/-- Everything the code reads or writes: the file system, the application,
the bucket map `mBuckets` (a `std::map` from hex digest to bucket handle, as
an association list with unique keys) and the task, which is `none` once its
owner has destroyed it (`weak.lock()` then yields nothing). -/
structure World (σ β : Type) where
  fs : FileSystem
  app : Application σ
  mBuckets : List (String × β)
  work : Option VerifyBucketWork

/-- The lookup `m.find(key)` of `std::map`. -/
def mapFind {β : Type} (m : List (String × β)) (key : String) : Option β :=
  match m with
  | [] => Option.none
  | (k, v) :: rest => if k = key then Option.some v else mapFind rest key

/-- The statement `m[key] = value` of `std::map`: the entry under `key` is
overwritten when present and created otherwise. -/
def mapAssign {β : Type} (m : List (String × β)) (key : String) (value : β) :
    List (String × β) :=
  match m with
  | [] => [(key, value)]
  | (k, v) :: rest =>
    if k = key then (key, value) :: rest else (k, v) :: mapAssign rest key value

/-- Modelled from the spec: the constructor.  The source initialises
`mBucketFile` and `mHash`; the initial values of `mDone` and `mEc` are in the
header `VerifyBucketWork.h`, which is missing, and the spec has a constructed
task not started and its outcome pending. -/
def VerifyBucketWork.new (bucketFile : String) (hash : uint256) : VerifyBucketWork :=
  { mBucketFile := bucketFile, mHash := hash, mDone := false, mEc := error_code.none }

/-! ## The operations of the source -/

/-- The method `VerifyBucketWork::adoptBucket`.  The two arguments `hDone`
and `hEc` are its assertions `assert(mDone)` and `assert(!mEc)`. -/
def adoptBucket {σ β : Type} (env : Collaborators σ β) (self : VerifyBucketWork)
    (_hDone : self.mDone = true) (_hEc : self.mEc.isSet = false) (w : World σ β) : World σ β :=
  let b := env.adoptFileAsBucket w.app.bucketManager self.mBucketFile self.mHash 0 0
  { w with
    app := { w.app with
      bucketManager := b.2
      adoptCalls := w.app.adoptCalls ++ [(self.mBucketFile, self.mHash)] }
    mBuckets := mapAssign w.mBuckets (env.binToHex self.mHash) b.1 }

/-- The body of the closure posted to the background thread, up to the
comparison: hash the file and compare with the expected hash.  The result is
the `ec` handed to the completion callback. -/
def verifierJob {σ β : Type} (env : Collaborators σ β) (fs : FileSystem) (job : VerifierJob) :
    error_code :=
  let vHash := hashFile env.sha256 bufSize (by decide) fs job.filename
  if vHash = job.hash then error_code.none else io_error

/-- The method `VerifyBucketWork::spawnVerifier`: post the verifier closure
to the background thread. -/
def spawnVerifier {σ β : Type} (self : VerifyBucketWork) (w : World σ β) : World σ β :=
  { w with
    app := { w.app with
      backgroundThread := w.app.backgroundThread ++ [⟨self.mBucketFile, self.mHash⟩] } }

/-- The method `VerifyBucketWork::onRun`, called on the live task `self`. -/
def onRun {σ β : Type} (env : Collaborators σ β) (self : VerifyBucketWork) (w : World σ β) :
    State × World σ β :=
  if hDone : self.mDone = true then
    if hEc : self.mEc.isSet = true then
      (State.WORK_FAILURE,
        { w with app := { w.app with verifyBucketFailure := w.app.verifyBucketFailure + 1 } })
    else
      let w1 := adoptBucket env self hDone (by simpa using hEc) w
      (State.WORK_SUCCESS,
        { w1 with app := { w1.app with verifyBucketSuccess := w1.app.verifyBucketSuccess + 1 } })
  else
    (State.WORK_WAITING, spawnVerifier self w)

/-- The background closure run by a worker thread: compute the outcome and
post the completion callback to the main thread. -/
def runVerifier {σ β : Type} (env : Collaborators σ β) (job : VerifierJob) (w : World σ β) :
    World σ β :=
  { w with
    app := { w.app with mainThread := w.app.mainThread ++ [⟨verifierJob env w.fs job⟩] } }

/-- The completion callback run by the main thread: when the task still
exists, record the outcome, mark the task done and wake it up. -/
def finishCallback {σ β : Type} (cb : FinishCallback) (w : World σ β) : World σ β :=
  match w.work with
  | Option.some self =>
    { w with
      work := Option.some { self with mEc := cb.ec, mDone := true }
      app := { w.app with wakeUps := w.app.wakeUps + 1 } }
  | Option.none => w

/-! ## Interleavings -/

/-- One atomic step of the system: the scheduler polls the task, a worker
thread runs the `i`-th posted verifier job, the main thread runs the `i`-th
posted completion callback, or the owner destroys the task. -/
inductive Action
  | poll
  | background (i : Nat)
  | complete (i : Nat)
  | destroy
  deriving DecidableEq, Repr

/-- Run one action; the second component is the value `onRun` returned when
the action was a poll of a live task. -/
def step {σ β : Type} (env : Collaborators σ β) (a : Action) (w : World σ β) :
    World σ β × Option State :=
  match a with
  | Action.poll =>
    match w.work with
    | Option.some self => ((onRun env self w).2, Option.some (onRun env self w).1)
    | Option.none => (w, Option.none)
  | Action.background i =>
    match w.app.backgroundThread[i]? with
    | Option.some job =>
      (runVerifier env job
        { w with app := { w.app with backgroundThread := w.app.backgroundThread.eraseIdx i } },
        Option.none)
    | Option.none => (w, Option.none)
  | Action.complete i =>
    match w.app.mainThread[i]? with
    | Option.some cb =>
      (finishCallback cb
        { w with app := { w.app with mainThread := w.app.mainThread.eraseIdx i } },
        Option.none)
    | Option.none => (w, Option.none)
  | Action.destroy => ({ w with work := Option.none }, Option.none)

/-- The world after a sequence of actions. -/
def run {σ β : Type} (env : Collaborators σ β) (acts : List Action) (w : World σ β) :
    World σ β :=
  match acts with
  | [] => w
  | a :: rest => run env rest (step env a w).1

/-- The values returned by the polls of a sequence of actions, in order. -/
def pollResults {σ β : Type} (env : Collaborators σ β) (acts : List Action) (w : World σ β) :
    List State :=
  match acts with
  | [] => []
  | a :: rest =>
    match (step env a w).2 with
    | Option.some r => r :: pollResults env rest (step env a w).1
    | Option.none => pollResults env rest (step env a w).1

/-- One event of a run in which the environment may change files: an action
of the system, or another party rewriting, moving or removing the file
`filename`, after which the file system holds `state` under that name (the
task does not own the file; no code of this source does this). -/
inductive Event
  | act (a : Action)
  | fileChanged (filename : String) (state : FileState)

/-- Run one event; a change of a file touches only the file system. -/
def stepEvent {σ β : Type} (env : Collaborators σ β) (e : Event) (w : World σ β) :
    World σ β × Option State :=
  match e with
  | Event.act a => step env a w
  | Event.fileChanged filename state =>
    ({ w with fs := fun name => if name = filename then state else w.fs name }, Option.none)

/-- The world after a sequence of events. -/
def runEvents {σ β : Type} (env : Collaborators σ β) (evs : List Event) (w : World σ β) :
    World σ β :=
  match evs with
  | [] => w
  | e :: rest => runEvents env rest (stepEvent env e w).1

/-- The values returned by the polls of a sequence of events, in order. -/
def pollResultsEvents {σ β : Type} (env : Collaborators σ β) (evs : List Event)
    (w : World σ β) : List State :=
  match evs with
  | [] => []
  | e :: rest =>
    match (stepEvent env e w).2 with
    | Option.some r => r :: pollResultsEvents env rest (stepEvent env e w).1
    | Option.none => pollResultsEvents env rest (stepEvent env e w).1

/-- A world in which the task for `bucketFile` and `hash` has just been
constructed: nothing is posted to either thread and nothing has been adopted
or woken; the bucket manager, the bucket map and the meter counts are those
of the caller. -/
def World.fresh {σ β : Type} (fs : FileSystem) (bucketManager : σ) (buckets : List (String × β))
    (success failure : Nat) (bucketFile : String) (hash : uint256) : World σ β :=
  { fs := fs
    app :=
      { bucketManager := bucketManager
        adoptCalls := []
        verifyBucketSuccess := success
        verifyBucketFailure := failure
        backgroundThread := []
        mainThread := []
        wakeUps := 0 }
    mBuckets := buckets
    work := Option.some (VerifyBucketWork.new bucketFile hash) }

/-- The run "poll; background job; completion callback; poll". -/
def pollJobFinishPoll : List Action :=
  [Action.poll, Action.background 0, Action.complete 0, Action.poll]

/-! ## Auxiliary notions for the proofs -/

/-- The bytes the read loop with a buffer of `n` bytes still hands to the
hasher from this stream: nothing when the stream failed, everything pending
when no device error lies before the end of the file, and otherwise the
whole buffers of `n` bytes that fit before the error. -/
def ifstream.remaining (s : ifstream) (n : Nat) : List Byte :=
  if s.failed then []
  else
    match s.readErrorAfter with
    | Option.none => s.pending
    | Option.some k => if k < s.pending.length then s.pending.take (k / n * n) else s.pending

/-- The bytes the read loop with a buffer of `n` bytes hands to the hasher
for this file: none when the file cannot be opened, the whole content when no
device error lies before its end, and otherwise the whole buffers of `n`
bytes that fit before the error (the read that meets the error contributes
nothing). -/
def FileState.delivered (n : Nat) (f : FileState) : List Byte :=
  match f with
  | FileState.unopenable => []
  | FileState.file content Option.none => content
  | FileState.file content (Option.some k) =>
    if k < content.length then content.take (k / n * n) else content

/-- The value a poll of a done task returns for the recorded outcome `ec`. -/
def terminalState (ec : error_code) : State :=
  if ec.isSet then State.WORK_FAILURE else State.WORK_SUCCESS

/-- What holds in every world reached from a new task for `file` and `D` on
the file system `fs`: the file system is `fs`, every posted job carries
`file` and `D`, every posted callback carries the outcome of the job on `fs`,
and the task, while it exists, has its members `file` and `D` and, once done,
that outcome. -/
def Consistent {σ β : Type} (env : Collaborators σ β) (fs : FileSystem) (file : String)
    (D : uint256) (w : World σ β) : Prop :=
  w.fs = fs ∧
  (∀ job ∈ w.app.backgroundThread, job = ⟨file, D⟩) ∧
  (∀ cb ∈ w.app.mainThread, cb.ec = verifierJob env fs ⟨file, D⟩) ∧
  (∀ self, w.work = Option.some self →
    self.mBucketFile = file ∧ self.mHash = D ∧
      (self.mDone = true → self.mEc = verifierJob env fs ⟨file, D⟩))

/-- The task, if it still exists, is done. -/
def Settled {σ β : Type} (w : World σ β) : Prop :=
  ∀ self, w.work = Option.some self → self.mDone = true

/-- Nothing has been adopted: the bucket map and the bucket manager are the
initial ones and `adoptFileAsBucket` was never called. -/
def Untouched {σ β : Type} (bm : σ) (M : List (String × β)) (w : World σ β) : Prop :=
  w.mBuckets = M ∧ w.app.bucketManager = bm ∧ w.app.adoptCalls = []

/-! ## A concrete instance for evaluation -/

/-- A stand-in digest for examples: the sum of the bytes, as one byte. -/
def byteSum (bytes : List Byte) : uint256 := [bytes.foldl (fun a b => a + b) 0]

/-- Two lowercase hexadecimal digits per byte. -/
def hexOfBytes (bytes : List Byte) : String :=
  String.mk (bytes.flatMap (fun b =>
    [Nat.digitChar (b.val / 16), Nat.digitChar (b.val % 16)]))

/-- Collaborators for examples: the manager state counts the adoptions and a
handle is the adopted file name with the number of earlier adoptions. -/
def exampleEnv : Collaborators Nat (String × Nat) :=
  { sha256 := byteSum
    binToHex := hexOfBytes
    adoptFileAsBucket := fun count filename _ _ _ => ((filename, count), count + 1) }

/-- A file system for examples: `present.xdr` holds the bytes 1, 2, 3,
`empty.xdr` is empty, `flaky.xdr` holds 1, 2, 3 and its device fails after 2
bytes, and nothing else can be opened. -/
def exampleFs : FileSystem := fun name =>
  if name = "present.xdr" then FileState.file [1, 2, 3] Option.none
  else if name = "empty.xdr" then FileState.file [] Option.none
  else if name = "flaky.xdr" then FileState.file [1, 2, 3] (Option.some 2)
  else FileState.unopenable

/-- Two polls post two jobs for `present.xdr`; the first job and its callback
run and a poll follows; then the file is removed; then the second job and its
callback run and a last poll follows. -/
def exampleFlip : List Event :=
  [Event.act Action.poll, Event.act Action.poll, Event.act (Action.background 0),
    Event.act (Action.complete 0), Event.act Action.poll,
    Event.fileChanged "present.xdr" FileState.unopenable,
    Event.act (Action.background 0), Event.act (Action.complete 0), Event.act Action.poll]

/-- A task for `present.xdr` with expected digest `[6]` that is done with a
matching digest, in a world where nothing is posted or adopted and the bucket
map already has entries under `06` and `ff`. -/
def exampleDone : World Nat (String × Nat) :=
  { fs := exampleFs
    app :=
      { bucketManager := 0
        adoptCalls := []
        verifyBucketSuccess := 0
        verifyBucketFailure := 0
        backgroundThread := []
        mainThread := []
        wakeUps := 1 }
    mBuckets := [("06", ("old.xdr", 7)), ("ff", ("other.xdr", 8))]
    work := Option.some
      { mBucketFile := "present.xdr", mHash := [6], mDone := true, mEc := error_code.none } }

/-- A world whose task was destroyed while a callback with outcome `ec` is
still posted to the main thread. -/
def exampleOrphan (ec : error_code) : World Nat (String × Nat) :=
  { fs := exampleFs
    app :=
      { bucketManager := 0
        adoptCalls := []
        verifyBucketSuccess := 0
        verifyBucketFailure := 0
        backgroundThread := []
        mainThread := [⟨ec⟩]
        wakeUps := 0 }
    mBuckets := [("00", ("old.xdr", 7))]
    work := Option.none }

/-! ## Lemmas on the read loop -/

theorem ifstream.available_le (s : ifstream) : s.available ≤ s.pending.length := by
  unfold ifstream.available
  cases s.readErrorAfter <;> simp

theorem readLoop_failed (n : Nat) (hn : 0 < n) (s : ifstream) (hasher : SHA256)
    (h : s.failed = true) : readLoop n hn s hasher = (s, hasher) := by
  rw [readLoop]
  simp [h]

theorem readLoop_good (n : Nat) (hn : 0 < n) (s : ifstream) (hasher : SHA256)
    (h : s.failed = false) :
    readLoop n hn s hasher = readLoop n hn (s.read n).1 (hasher.add (s.read n).2) := by
  rw [readLoop]
  simp [h]

theorem ifstream.read_full (s : ifstream) (n : Nat) (hs : s.failed = false)
    (h : n ≤ s.available) :
    s.read n =
      ({ pending := s.pending.drop n
         readErrorAfter := s.readErrorAfter.map (fun k => k - n)
         failed := false
         gcount := n }, s.pending.take n) := by
  simp [ifstream.read, hs, h]

theorem ifstream.read_error (s : ifstream) (n : Nat) (hs : s.failed = false)
    (h : ¬ n ≤ s.available) (he : s.available < s.pending.length) :
    (s.read n).2 = [] ∧ (s.read n).1.failed = true := by
  constructor <;> simp [ifstream.read, hs, h, he]

theorem ifstream.read_eof (s : ifstream) (n : Nat) (hs : s.failed = false)
    (h : ¬ n ≤ s.available) (he : ¬ s.available < s.pending.length) :
    (s.read n).2 = s.pending ∧ (s.read n).1.failed = true := by
  have hav := s.available_le
  have heq : s.available = s.pending.length := by omega
  have hn2 : ¬ n ≤ s.pending.length := by omega
  constructor <;> simp [ifstream.read, hs, heq, hn2]

/-- A full read hands over the first `n` of the bytes that the loop still
extracts. -/
theorem ifstream.remaining_full (s : ifstream) (n : Nat) (hn : 0 < n) (hs : s.failed = false)
    (h : n ≤ s.available) :
    s.pending.take n ++ (s.read n).1.remaining n = s.remaining n := by
  rw [s.read_full n hs h]
  unfold ifstream.available at h
  unfold ifstream.remaining
  simp only [hs, Bool.false_eq_true, if_false]
  cases he : s.readErrorAfter with
  | none => simp
  | some k =>
    simp only [he] at h
    simp only [Option.map_some', List.length_drop]
    by_cases hk : k < s.pending.length
    · have hk2 : k - n < s.pending.length - n := by omega
      have hdiv : k / n * n = n + (k - n) / n * n := by
        have h1 : k = (k - n) + n := by omega
        have h2 : k / n = (k - n) / n + 1 := by
          conv_lhs => rw [h1]
          exact Nat.add_div_right _ hn
        rw [h2, Nat.add_mul, Nat.one_mul, Nat.add_comm]
      simp only [hk, hk2, if_true]
      rw [hdiv, List.take_add]
    · have hk2 : ¬ k - n < s.pending.length - n := by omega
      simp only [hk, hk2, if_false]
      exact List.take_append_drop n s.pending

theorem ifstream.remaining_error (s : ifstream) (n : Nat) (hs : s.failed = false)
    (h : ¬ n ≤ s.available) (he : s.available < s.pending.length) :
    s.remaining n = [] := by
  unfold ifstream.available at h he
  unfold ifstream.remaining
  simp only [hs, Bool.false_eq_true, if_false]
  cases hr : s.readErrorAfter with
  | none => simp [hr] at he
  | some k =>
    simp only [hr] at h he
    have hk : k < s.pending.length := by omega
    have hkn : k < n := by omega
    simp [hk, Nat.div_eq_of_lt hkn]

theorem ifstream.remaining_eof (s : ifstream) (n : Nat) (hs : s.failed = false)
    (he : ¬ s.available < s.pending.length) :
    s.remaining n = s.pending := by
  unfold ifstream.available at he
  unfold ifstream.remaining
  simp only [hs, Bool.false_eq_true, if_false]
  cases hr : s.readErrorAfter with
  | none => rfl
  | some k =>
    simp only [hr] at he
    have hk : ¬ k < s.pending.length := by omega
    simp [hk]

/-- The slices added by the read loop concatenate to what was added before
followed by the bytes the loop still extracts from the stream. -/
theorem readLoop_flatten (n : Nat) (hn : 0 < n) :
    ∀ (m : Nat) (s : ifstream) (hasher : SHA256),
      s.pending.length + (if s.failed then 0 else 1) ≤ m →
      (readLoop n hn s hasher).2.added.flatten = hasher.added.flatten ++ s.remaining n := by
  intro m
  induction m with
  | zero =>
    intro s hasher hm
    have hf : s.failed = true := by
      cases hb : s.failed with
      | true => rfl
      | false => simp [hb] at hm
    rw [readLoop_failed n hn s hasher hf]
    simp [ifstream.remaining, hf]
  | succ m ih =>
    intro s hasher hm
    cases hf : s.failed with
    | true =>
      rw [readLoop_failed n hn s hasher hf]
      simp [ifstream.remaining, hf]
    | false =>
      rw [readLoop_good n hn s hasher hf]
      have hav := s.available_le
      simp only [hf, Bool.false_eq_true, if_false] at hm
      by_cases h : n ≤ s.available
      · have hm2 : (s.read n).1.pending.length + (if (s.read n).1.failed then 0 else 1) ≤ m := by
          rw [s.read_full n hf h]
          simp only [List.length_drop, Bool.false_eq_true, if_false]
          omega
        rw [ih _ _ hm2, ← s.remaining_full n hn hf h]
        simp [SHA256.add, s.read_full n hf h]
      · by_cases he : s.available < s.pending.length
        · obtain ⟨h2, h1f⟩ := s.read_error n hf h he
          rw [readLoop_failed n hn _ _ h1f, h2, s.remaining_error n hf h he]
          simp [SHA256.add]
        · obtain ⟨h2, h1f⟩ := s.read_eof n hf h he
          rw [readLoop_failed n hn _ _ h1f, h2, s.remaining_eof n hf he]
          simp [SHA256.add]

theorem openFile_delivered (n : Nat) (fs : FileSystem) (filename : String) :
    (ifstream.openFile fs filename).remaining n = (fs filename).delivered n := by
  unfold ifstream.openFile FileState.delivered ifstream.remaining
  cases fs filename with
  | unopenable => simp
  | file content e => cases e <;> simp

/-- The slices the job adds to its hasher concatenate to the delivered bytes
of the file. -/
theorem readLoop_openFile (n : Nat) (hn : 0 < n) (fs : FileSystem) (filename : String) :
    (readLoop n hn (ifstream.openFile fs filename) SHA256.create).2.added.flatten
      = (fs filename).delivered n := by
  rw [readLoop_flatten n hn _ _ _ (le_refl _), openFile_delivered]
  simp [SHA256.create]

theorem hashFile_eq (sha256 : List Byte → uint256) (n : Nat) (hn : 0 < n) (fs : FileSystem)
    (filename : String) :
    hashFile sha256 n hn fs filename = sha256 ((fs filename).delivered n) := by
  unfold hashFile SHA256.finish
  rw [readLoop_openFile]

theorem verifierJob_eq {σ β : Type} (env : Collaborators σ β) (fs : FileSystem)
    (job : VerifierJob) :
    verifierJob env fs job =
      if env.sha256 ((fs job.filename).delivered bufSize) = job.hash then error_code.none
      else io_error := by
  unfold verifierJob
  simp only [hashFile_eq]

/-! ## Lemmas on `onRun`, the bucket map and the standard run -/

theorem isSet_none : error_code.none.isSet = false := by decide

theorem isSet_io_error : io_error.isSet = true := by decide

theorem onRun_waiting {σ β : Type} (env : Collaborators σ β) (self : VerifyBucketWork)
    (w : World σ β) (h : self.mDone = false) :
    onRun env self w = (State.WORK_WAITING, spawnVerifier self w) := by
  simp [onRun, h]

theorem onRun_failure {σ β : Type} (env : Collaborators σ β) (self : VerifyBucketWork)
    (w : World σ β) (hd : self.mDone = true) (he : self.mEc.isSet = true) :
    onRun env self w = (State.WORK_FAILURE,
      { w with app := { w.app with verifyBucketFailure := w.app.verifyBucketFailure + 1 } }) := by
  simp [onRun, hd, he]

theorem onRun_success {σ β : Type} (env : Collaborators σ β) (self : VerifyBucketWork)
    (w : World σ β) (hd : self.mDone = true) (he : self.mEc.isSet = false) :
    onRun env self w = (State.WORK_SUCCESS,
      { w with
        app := { w.app with
          bucketManager :=
            (env.adoptFileAsBucket w.app.bucketManager self.mBucketFile self.mHash 0 0).2
          adoptCalls := w.app.adoptCalls ++ [(self.mBucketFile, self.mHash)]
          verifyBucketSuccess := w.app.verifyBucketSuccess + 1 }
        mBuckets := mapAssign w.mBuckets (env.binToHex self.mHash)
          (env.adoptFileAsBucket w.app.bucketManager self.mBucketFile self.mHash 0 0).1 }) := by
  simp [onRun, hd, he, adoptBucket]

theorem mapFind_mapAssign_same {β : Type} (m : List (String × β)) (key : String) (value : β) :
    mapFind (mapAssign m key value) key = Option.some value := by
  induction m with
  | nil => simp [mapAssign, mapFind]
  | cons p rest ih =>
    obtain ⟨k, v⟩ := p
    by_cases h : k = key
    · simp [mapAssign, mapFind, h]
    · simp [mapAssign, mapFind, h, ih]

theorem mapFind_mapAssign_other {β : Type} (m : List (String × β)) (key other : String)
    (value : β) (h : other ≠ key) :
    mapFind (mapAssign m key value) other = mapFind m other := by
  induction m with
  | nil => simp [mapAssign, mapFind, Ne.symm h]
  | cons p rest ih =>
    obtain ⟨k, v⟩ := p
    by_cases hk : k = key
    · subst hk
      simp [mapAssign, mapFind, Ne.symm h]
    · by_cases ho : k = other
      · subst ho
        simp [mapAssign, mapFind, hk]
      · simp [mapAssign, mapFind, hk, ho, ih]

/-- The world after "poll; background job; completion callback" on a new
task: the task is done with the outcome of the job, one wake-up was issued
and nothing else changed. -/
theorem run_until_done {σ β : Type} (env : Collaborators σ β) (fs : FileSystem) (bm : σ)
    (M : List (String × β)) (s f : Nat) (file : String) (D : uint256) :
    run env [Action.poll, Action.background 0, Action.complete 0]
        (World.fresh fs bm M s f file D) =
      { fs := fs
        app :=
          { bucketManager := bm
            adoptCalls := []
            verifyBucketSuccess := s
            verifyBucketFailure := f
            backgroundThread := []
            mainThread := []
            wakeUps := 1 }
        mBuckets := M
        work := Option.some
          { mBucketFile := file, mHash := D, mDone := true,
            mEc := verifierJob env fs ⟨file, D⟩ } } := by
  simp [run, step, World.fresh, VerifyBucketWork.new, onRun, spawnVerifier, runVerifier,
    finishCallback]

theorem pollResults_until_done {σ β : Type} (env : Collaborators σ β) (fs : FileSystem) (bm : σ)
    (M : List (String × β)) (s f : Nat) (file : String) (D : uint256) :
    pollResults env [Action.poll, Action.background 0, Action.complete 0]
        (World.fresh fs bm M s f file D) = [State.WORK_WAITING] := by
  simp [pollResults, step, World.fresh, VerifyBucketWork.new, onRun, spawnVerifier, runVerifier,
    finishCallback]

theorem run_append {σ β : Type} (env : Collaborators σ β) (xs ys : List Action)
    (w : World σ β) : run env (xs ++ ys) w = run env ys (run env xs w) := by
  induction xs generalizing w with
  | nil => rfl
  | cons a rest ih => simp [run, ih]

theorem pollResults_append {σ β : Type} (env : Collaborators σ β) (xs ys : List Action)
    (w : World σ β) :
    pollResults env (xs ++ ys) w = pollResults env xs w ++ pollResults env ys (run env xs w) := by
  induction xs generalizing w with
  | nil => rfl
  | cons a rest ih =>
    simp only [List.cons_append, pollResults, run]
    cases (step env a w).2 <;> simp [ih]

/-- The standard run when the job reports a mismatch. -/
theorem standard_run_mismatch {σ β : Type} (env : Collaborators σ β) (fs : FileSystem) (bm : σ)
    (M : List (String × β)) (s f : Nat) (file : String) (D : uint256)
    (h : (verifierJob env fs ⟨file, D⟩).isSet = true) :
    pollResults env pollJobFinishPoll (World.fresh fs bm M s f file D)
        = [State.WORK_WAITING, State.WORK_FAILURE] ∧
      (run env pollJobFinishPoll (World.fresh fs bm M s f file D)).mBuckets = M ∧
      (run env pollJobFinishPoll (World.fresh fs bm M s f file D)).app.adoptCalls = [] ∧
      (run env pollJobFinishPoll (World.fresh fs bm M s f file D)).app.verifyBucketSuccess = s ∧
      (run env pollJobFinishPoll (World.fresh fs bm M s f file D)).app.verifyBucketFailure
        = f + 1 := by
  have hsplit : pollJobFinishPoll
      = [Action.poll, Action.background 0, Action.complete 0] ++ [Action.poll] := rfl
  rw [hsplit, run_append, pollResults_append, run_until_done, pollResults_until_done]
  simp [run, pollResults, step, onRun, h]

/-- The standard run when the job reports a match. -/
theorem standard_run_match {σ β : Type} (env : Collaborators σ β) (fs : FileSystem) (bm : σ)
    (M : List (String × β)) (s f : Nat) (file : String) (D : uint256)
    (h : (verifierJob env fs ⟨file, D⟩).isSet = false) :
    pollResults env pollJobFinishPoll (World.fresh fs bm M s f file D)
        = [State.WORK_WAITING, State.WORK_SUCCESS] ∧
      (run env pollJobFinishPoll (World.fresh fs bm M s f file D)).mBuckets
        = mapAssign M (env.binToHex D) (env.adoptFileAsBucket bm file D 0 0).1 ∧
      (run env pollJobFinishPoll (World.fresh fs bm M s f file D)).app.adoptCalls
        = [(file, D)] ∧
      (run env pollJobFinishPoll (World.fresh fs bm M s f file D)).app.verifyBucketSuccess
        = s + 1 ∧
      (run env pollJobFinishPoll (World.fresh fs bm M s f file D)).app.verifyBucketFailure
        = f := by
  have hsplit : pollJobFinishPoll
      = [Action.poll, Action.background 0, Action.complete 0] ++ [Action.poll] := rfl
  rw [hsplit, run_append, pollResults_append, run_until_done, pollResults_until_done]
  simp [run, pollResults, step, onRun, h, adoptBucket]

theorem verifierJob_isSet {σ β : Type} (env : Collaborators σ β) (fs : FileSystem)
    (job : VerifierJob) :
    (verifierJob env fs job).isSet = true ↔
      env.sha256 ((fs job.filename).delivered bufSize) ≠ job.hash := by
  rw [verifierJob_eq]
  by_cases h : env.sha256 ((fs job.filename).delivered bufSize) = job.hash
  · simp [h, isSet_none]
  · simp [h, isSet_io_error]

/-! ## Invariants of the interleavings -/

theorem onRun_frame {σ β : Type} (env : Collaborators σ β) (self : VerifyBucketWork)
    (w : World σ β) :
    (onRun env self w).2.fs = w.fs ∧ (onRun env self w).2.work = w.work ∧
      (onRun env self w).2.app.mainThread = w.app.mainThread ∧
      ((onRun env self w).2.app.backgroundThread = w.app.backgroundThread ∨
        (onRun env self w).2.app.backgroundThread
          = w.app.backgroundThread ++ [⟨self.mBucketFile, self.mHash⟩]) := by
  cases hd : self.mDone with
  | false => simp [onRun_waiting env self w hd, spawnVerifier]
  | true =>
    cases he : self.mEc.isSet with
    | false => simp [onRun_success env self w hd he]
    | true => simp [onRun_failure env self w hd he]

theorem consistent_fresh {σ β : Type} (env : Collaborators σ β) (fs : FileSystem) (bm : σ)
    (M : List (String × β)) (s f : Nat) (file : String) (D : uint256) :
    Consistent env fs file D (World.fresh fs bm M s f file D) := by
  refine ⟨rfl, ?_, ?_, ?_⟩
  · intro job hj
    simp [World.fresh] at hj
  · intro cb hc
    simp [World.fresh] at hc
  · intro self hs
    simp only [World.fresh, VerifyBucketWork.new, Option.some.injEq] at hs
    subst hs
    simp

theorem consistent_step {σ β : Type} (env : Collaborators σ β) (fs : FileSystem)
    (file : String) (D : uint256) (a : Action) (w : World σ β)
    (h : Consistent env fs file D w) : Consistent env fs file D (step env a w).1 := by
  obtain ⟨hfs, hbg, hmain, hwork⟩ := h
  cases a with
  | poll =>
    cases hw : w.work with
    | none => simpa [step, hw] using ⟨hfs, hbg, hmain, hwork⟩
    | some self =>
      obtain ⟨h1, h2, h3, h4⟩ := onRun_frame env self w
      obtain ⟨hf, hD, _⟩ := hwork self hw
      simp only [step, hw]
      refine ⟨h1.trans hfs, ?_, by rw [h3]; exact hmain, by rw [h2]; exact hwork⟩
      intro job hj
      rcases h4 with h4 | h4
      · rw [h4] at hj
        exact hbg job hj
      · rw [h4, List.mem_append, List.mem_singleton] at hj
        rcases hj with hj | hj
        · exact hbg job hj
        · rw [hj, hf, hD]
  | background i =>
    cases hj : w.app.backgroundThread[i]? with
    | none => simpa [step, hj] using ⟨hfs, hbg, hmain, hwork⟩
    | some job =>
      have hjob : job = ⟨file, D⟩ := hbg job (List.getElem?_mem hj)
      simp only [step, hj, runVerifier]
      refine ⟨hfs, ?_, ?_, hwork⟩
      · intro j hmem
        exact hbg j (List.mem_of_mem_eraseIdx hmem)
      · intro cb hmem
        rw [List.mem_append, List.mem_singleton] at hmem
        rcases hmem with hmem | hmem
        · exact hmain cb hmem
        · rw [hmem, hjob, hfs]
  | complete i =>
    cases hc : w.app.mainThread[i]? with
    | none => simpa [step, hc] using ⟨hfs, hbg, hmain, hwork⟩
    | some cb =>
      have hcb : cb.ec = verifierJob env fs ⟨file, D⟩ := hmain cb (List.getElem?_mem hc)
      simp only [step, hc, finishCallback]
      cases hw : w.work with
      | none =>
        refine ⟨hfs, hbg, ?_, ?_⟩
        · intro c hmem
          exact hmain c (List.mem_of_mem_eraseIdx hmem)
        · intro self hs
          simp [hw] at hs
      | some self0 =>
        obtain ⟨hf, hD, _⟩ := hwork self0 hw
        refine ⟨hfs, hbg, ?_, ?_⟩
        · intro c hmem
          exact hmain c (List.mem_of_mem_eraseIdx hmem)
        · intro self hs
          simp only [Option.some.injEq] at hs
          subst hs
          exact ⟨hf, hD, fun _ => hcb⟩
  | destroy =>
    refine ⟨hfs, hbg, hmain, ?_⟩
    intro self hs
    simp [step] at hs

theorem consistent_run {σ β : Type} (env : Collaborators σ β) (fs : FileSystem)
    (file : String) (D : uint256) (acts : List Action) (w : World σ β)
    (h : Consistent env fs file D w) : Consistent env fs file D (run env acts w) := by
  induction acts generalizing w with
  | nil => exact h
  | cons a rest ih => exact ih _ (consistent_step env fs file D a w h)

theorem settled_step {σ β : Type} (env : Collaborators σ β) (a : Action) (w : World σ β)
    (h : Settled w) : Settled (step env a w).1 := by
  cases a with
  | poll =>
    cases hw : w.work with
    | none => simpa [step, hw] using h
    | some self =>
      intro self2 hs
      simp only [step, hw, (onRun_frame env self w).2.1] at hs
      exact h self2 (hw.trans hs)
  | background i =>
    cases hj : w.app.backgroundThread[i]? with
    | none => simpa [step, hj] using h
    | some job =>
      intro self hs
      simp only [step, hj, runVerifier] at hs
      exact h self hs
  | complete i =>
    cases hc : w.app.mainThread[i]? with
    | none => simpa [step, hc] using h
    | some cb =>
      intro self hs
      simp only [step, hc, finishCallback] at hs
      cases hw : w.work with
      | none => simp [hw] at hs
      | some self0 =>
        simp only [hw, Option.some.injEq] at hs
        subst hs
        rfl
  | destroy =>
    intro self hs
    simp [step] at hs

/-- The value a poll returns in a consistent world. -/
theorem poll_consistent {σ β : Type} (env : Collaborators σ β) (fs : FileSystem)
    (file : String) (D : uint256) (w : World σ β) (self : VerifyBucketWork)
    (h : Consistent env fs file D w) (hw : w.work = Option.some self) :
    (step env Action.poll w).2 = Option.some
      (if self.mDone then terminalState (verifierJob env fs ⟨file, D⟩)
        else State.WORK_WAITING) := by
  obtain ⟨_, _, hec⟩ := h.2.2.2 self hw
  cases hd : self.mDone with
  | false => simp [step, hw, onRun_waiting env self w hd]
  | true =>
    have hec2 := hec hd
    cases he : (verifierJob env fs ⟨file, D⟩).isSet with
    | false =>
      rw [← hec2] at he
      simp [step, hw, onRun_success env self w hd he, terminalState, ← hec2, he]
    | true =>
      rw [← hec2] at he
      simp [step, hw, onRun_failure env self w hd he, terminalState, ← hec2, he]

/-- Once the task is done, every poll of every continuation returns the
terminal value of the job's outcome. -/
theorem pollResults_settled {σ β : Type} (env : Collaborators σ β) (fs : FileSystem)
    (file : String) (D : uint256) (acts : List Action) (w : World σ β)
    (h : Consistent env fs file D w) (hs : Settled w) :
    ∀ r ∈ pollResults env acts w, r = terminalState (verifierJob env fs ⟨file, D⟩) := by
  induction acts generalizing w with
  | nil => intro r hr; simp [pollResults] at hr
  | cons a rest ih =>
    have hnext := ih _ (consistent_step env fs file D a w h) (settled_step env a w hs)
    intro r hr
    simp only [pollResults] at hr
    cases hres : (step env a w).2 with
    | none =>
      rw [hres] at hr
      exact hnext r hr
    | some r0 =>
      rw [hres] at hr
      rcases List.mem_cons.mp hr with hr | hr
      · subst hr
        cases a with
        | poll =>
          cases hw : w.work with
          | none => simp [step, hw] at hres
          | some self =>
            have hp := poll_consistent env fs file D w self h hw
            rw [hres, hs self hw] at hp
            simpa using hp
        | background i =>
          cases hj : w.app.backgroundThread[i]? <;> simp [step, hj] at hres
        | complete i =>
          cases hc : w.app.mainThread[i]? <;> simp [step, hc] at hres
        | destroy => simp [step] at hres
      · exact hnext r hr

/-- In a consistent world, a poll that returns a terminal value leaves the
task done. -/
theorem settled_of_terminal {σ β : Type} (env : Collaborators σ β) (fs : FileSystem)
    (file : String) (D : uint256) (a : Action) (w : World σ β) (r : State)
    (h : Consistent env fs file D w) (hres : (step env a w).2 = Option.some r)
    (hr : r ≠ State.WORK_WAITING) :
    Settled (step env a w).1 ∧ r = terminalState (verifierJob env fs ⟨file, D⟩) := by
  cases a with
  | poll =>
    cases hw : w.work with
    | none => simp [step, hw] at hres
    | some self =>
      have hp := poll_consistent env fs file D w self h hw
      rw [hres] at hp
      cases hd : self.mDone with
      | false =>
        rw [hd] at hp
        simp only [Bool.false_eq_true, if_false, Option.some.injEq] at hp
        exact absurd hp hr
      | true =>
        rw [hd] at hp
        simp only [if_true, Option.some.injEq] at hp
        refine ⟨?_, hp⟩
        intro self2 hs2
        simp only [step, hw, (onRun_frame env self w).2.1] at hs2
        simp only [Option.some.injEq] at hs2
        subst hs2
        exact hd
  | background i =>
    cases hj : w.app.backgroundThread[i]? <;> simp [step, hj] at hres
  | complete i =>
    cases hc : w.app.mainThread[i]? <;> simp [step, hc] at hres
  | destroy => simp [step] at hres

theorem pollResults_stable {σ β : Type} (env : Collaborators σ β) (fs : FileSystem)
    (file : String) (D : uint256) (acts : List Action) (w : World σ β)
    (h : Consistent env fs file D w) :
    List.Pairwise (fun a b => a ≠ State.WORK_WAITING → b = a) (pollResults env acts w) := by
  induction acts generalizing w with
  | nil => simp [pollResults]
  | cons a rest ih =>
    have hc := consistent_step env fs file D a w h
    simp only [pollResults]
    cases hres : (step env a w).2 with
    | none => exact ih _ hc
    | some r =>
      simp only [List.pairwise_cons]
      refine ⟨?_, ih _ hc⟩
      intro r2 hr2 hne
      obtain ⟨hset, hterm⟩ := settled_of_terminal env fs file D a w r h hres hne
      rw [hterm]
      exact pollResults_settled env fs file D rest _ hc hset r2 hr2

theorem untouched_step {σ β : Type} (env : Collaborators σ β) (fs : FileSystem)
    (file : String) (D : uint256) (bm : σ) (M : List (String × β)) (a : Action) (w : World σ β)
    (h : Consistent env fs file D w) (hmis : (verifierJob env fs ⟨file, D⟩).isSet = true)
    (hu : Untouched bm M w) : Untouched bm M (step env a w).1 := by
  cases a with
  | poll =>
    cases hw : w.work with
    | none => simpa [step, hw] using hu
    | some self =>
      obtain ⟨_, _, hec⟩ := h.2.2.2 self hw
      cases hd : self.mDone with
      | false => simpa [step, hw, onRun_waiting env self w hd, spawnVerifier, Untouched] using hu
      | true =>
        have he : self.mEc.isSet = true := by rw [hec hd]; exact hmis
        simpa [step, hw, onRun_failure env self w hd he, Untouched] using hu
  | background i =>
    cases hj : w.app.backgroundThread[i]? with
    | none => simpa [step, hj] using hu
    | some job => simpa [step, hj, runVerifier, Untouched] using hu
  | complete i =>
    cases hc : w.app.mainThread[i]? with
    | none => simpa [step, hc] using hu
    | some cb =>
      cases hw : w.work <;> simpa [step, hc, finishCallback, hw, Untouched] using hu
  | destroy => simpa [step, Untouched] using hu

theorem untouched_run {σ β : Type} (env : Collaborators σ β) (fs : FileSystem)
    (file : String) (D : uint256) (bm : σ) (M : List (String × β)) (acts : List Action)
    (w : World σ β) (h : Consistent env fs file D w)
    (hmis : (verifierJob env fs ⟨file, D⟩).isSet = true) (hu : Untouched bm M w) :
    Untouched bm M (run env acts w) := by
  induction acts generalizing w with
  | nil => exact hu
  | cons a rest ih =>
    exact ih _ (consistent_step env fs file D a w h) (untouched_step env fs file D bm M a w h hmis hu)

/-- A poll that returns a terminal value leaves the task done, on any file
system. -/
theorem settled_of_result {σ β : Type} (env : Collaborators σ β) (a : Action) (w : World σ β)
    (r : State) (hres : (step env a w).2 = Option.some r) (hr : r ≠ State.WORK_WAITING) :
    Settled (step env a w).1 := by
  cases a with
  | poll =>
    cases hw : w.work with
    | none => simp [step, hw] at hres
    | some self =>
      cases hd : self.mDone with
      | false =>
        simp only [step, hw, onRun_waiting env self w hd, Option.some.injEq] at hres
        exact absurd hres.symm hr
      | true =>
        intro self2 hs2
        simp only [step, hw, (onRun_frame env self w).2.1, Option.some.injEq] at hs2
        subst hs2
        exact hd
  | background i =>
    cases hj : w.app.backgroundThread[i]? <;> simp [step, hj] at hres
  | complete i =>
    cases hc : w.app.mainThread[i]? <;> simp [step, hc] at hres
  | destroy => simp [step] at hres

/-- A poll of a done task does not return `WORK_WAITING`. -/
theorem result_of_settled {σ β : Type} (env : Collaborators σ β) (a : Action) (w : World σ β)
    (r : State) (hs : Settled w) (hres : (step env a w).2 = Option.some r) :
    r ≠ State.WORK_WAITING := by
  cases a with
  | poll =>
    cases hw : w.work with
    | none => simp [step, hw] at hres
    | some self =>
      have hd := hs self hw
      cases he : self.mEc.isSet with
      | false =>
        simp only [step, hw, onRun_success env self w hd he, Option.some.injEq] at hres
        rw [← hres]
        decide
      | true =>
        simp only [step, hw, onRun_failure env self w hd he, Option.some.injEq] at hres
        rw [← hres]
        decide
  | background i =>
    cases hj : w.app.backgroundThread[i]? <;> simp [step, hj] at hres
  | complete i =>
    cases hc : w.app.mainThread[i]? <;> simp [step, hc] at hres
  | destroy => simp [step] at hres

theorem settled_stepEvent {σ β : Type} (env : Collaborators σ β) (e : Event) (w : World σ β)
    (h : Settled w) : Settled (stepEvent env e w).1 := by
  cases e with
  | act a => exact settled_step env a w h
  | fileChanged filename state => exact h

theorem pollResultsEvents_settled {σ β : Type} (env : Collaborators σ β) (evs : List Event)
    (w : World σ β) (hs : Settled w) :
    ∀ r ∈ pollResultsEvents env evs w, r ≠ State.WORK_WAITING := by
  induction evs generalizing w with
  | nil => intro r hr; simp [pollResultsEvents] at hr
  | cons e rest ih =>
    have hnext := ih _ (settled_stepEvent env e w hs)
    intro r hr
    simp only [pollResultsEvents] at hr
    cases hres : (stepEvent env e w).2 with
    | none =>
      rw [hres] at hr
      exact hnext r hr
    | some r0 =>
      rw [hres] at hr
      rcases List.mem_cons.mp hr with hr | hr
      · subst hr
        cases e with
        | act a => exact result_of_settled env a w r hs hres
        | fileChanged filename state => simp [stepEvent] at hres
      · exact hnext r hr

/-- Whatever happens to the files, no poll returns `WORK_WAITING` after a poll
has returned a terminal value. -/
theorem pollResultsEvents_no_waiting {σ β : Type} (env : Collaborators σ β) (evs : List Event)
    (w : World σ β) :
    List.Pairwise
      (fun earlier later => earlier ≠ State.WORK_WAITING → later ≠ State.WORK_WAITING)
      (pollResultsEvents env evs w) := by
  induction evs generalizing w with
  | nil => simp [pollResultsEvents]
  | cons e rest ih =>
    simp only [pollResultsEvents]
    cases hres : (stepEvent env e w).2 with
    | none => exact ih _
    | some r =>
      simp only [List.pairwise_cons]
      refine ⟨?_, ih _⟩
      intro r2 hr2 hne
      cases e with
      | act a =>
        exact pollResultsEvents_settled env rest _ (settled_of_result env a w r hres hne) r2 hr2
      | fileChanged filename state => simp [stepEvent] at hres

/-- The poll after a completion callback on a live task returns the terminal
value of the outcome that callback carried. -/
theorem poll_after_callback {σ β : Type} (env : Collaborators σ β) (w : World σ β)
    (self : VerifyBucketWork) (cb : FinishCallback) (hw : w.work = Option.some self) :
    (step env Action.poll (finishCallback cb w)).2 = Option.some (terminalState cb.ec) := by
  cases he : cb.ec.isSet with
  | false => simp [step, finishCallback, hw, onRun, he, terminalState]
  | true => simp [step, finishCallback, hw, onRun, he, terminalState]

theorem pollResults_consistent {σ β : Type} (env : Collaborators σ β) (fs : FileSystem)
    (file : String) (D : uint256) (acts : List Action) (w : World σ β)
    (h : Consistent env fs file D w) :
    ∀ r ∈ pollResults env acts w,
      r = State.WORK_WAITING ∨ r = terminalState (verifierJob env fs ⟨file, D⟩) := by
  induction acts generalizing w with
  | nil => intro r hr; simp [pollResults] at hr
  | cons a rest ih =>
    have hnext := ih _ (consistent_step env fs file D a w h)
    intro r hr
    simp only [pollResults] at hr
    cases hres : (step env a w).2 with
    | none =>
      rw [hres] at hr
      exact hnext r hr
    | some r0 =>
      rw [hres] at hr
      rcases List.mem_cons.mp hr with hr | hr
      · subst hr
        by_cases hwait : r = State.WORK_WAITING
        · exact Or.inl hwait
        · exact Or.inr (settled_of_terminal env fs file D a w r h hres hwait).2
      · exact hnext r hr

theorem verifierJob_readable {σ β : Type} (env : Collaborators σ β) (fs : FileSystem)
    (file : String) (F : List Byte) (D : uint256)
    (hF : fs file = FileState.file F Option.none) :
    (verifierJob env fs ⟨file, D⟩).isSet = true ↔ env.sha256 F ≠ D := by
  rw [verifierJob_isSet]
  simp [hF, FileState.delivered]

theorem isSet_eq_false_iff (ec : error_code) : ec.isSet = false ↔ ¬ ec.isSet = true := by
  cases ec.isSet <;> simp

theorem run_polls_matched {σ β : Type} (env : Collaborators σ β) (self : VerifyBucketWork)
    (hd : self.mDone = true) (he : self.mEc.isSet = false) (n : Nat) :
    ∀ w : World σ β, w.work = Option.some self →
      (run env (List.replicate n Action.poll) w).app.adoptCalls
          = w.app.adoptCalls ++ List.replicate n (self.mBucketFile, self.mHash) ∧
        pollResults env (List.replicate n Action.poll) w
          = List.replicate n State.WORK_SUCCESS := by
  induction n with
  | zero => intro w _; simp [run, pollResults]
  | succ n ih =>
    intro w hw
    have hstep : step env Action.poll w
        = ((onRun env self w).2, Option.some (onRun env self w).1) := by
      simp [step, hw]
    have hwork : (onRun env self w).2.work = Option.some self := by
      rw [(onRun_frame env self w).2.1, hw]
    obtain ⟨ih1, ih2⟩ := ih (onRun env self w).2 hwork
    simp only [List.replicate_succ, run, pollResults, hstep]
    rw [ih1, ih2]
    simp [onRun_success env self w hd he]

/-! ## The claims -/

/-- C1: for a readable file with content `F` and an expected digest `D` with
`sha256 F = D`, the run "poll; background job; completion callback; poll" on
a newly constructed task returns `WORK_WAITING` from the first poll and
`WORK_SUCCESS` from the last, and afterwards the bucket map binds the key
`binToHex D` to the handle that `adoptFileAsBucket (bucketFile, D, 0, 0)`
returned. -/
theorem matching_file_is_adopted {σ β : Type} (env : Collaborators σ β) (fs : FileSystem)
    (bm : σ) (M : List (String × β)) (s f : Nat) (file : String) (F : List Byte) (D : uint256)
    (hF : fs file = FileState.file F Option.none) (hD : env.sha256 F = D) :
    pollResults env pollJobFinishPoll (World.fresh fs bm M s f file D)
        = [State.WORK_WAITING, State.WORK_SUCCESS] ∧
      mapFind (run env pollJobFinishPoll (World.fresh fs bm M s f file D)).mBuckets
          (env.binToHex D)
        = Option.some (env.adoptFileAsBucket bm file D 0 0).1 := by
  have hok : (verifierJob env fs ⟨file, D⟩).isSet = false := by
    rw [isSet_eq_false_iff, verifierJob_readable env fs file F D hF]
    simpa using hD
  obtain ⟨h1, h2, _⟩ := standard_run_match env fs bm M s f file D hok
  exact ⟨h1, by rw [h2, mapFind_mapAssign_same]⟩

theorem matching_file_is_adopted_witness :
    pollResults exampleEnv pollJobFinishPoll
        (World.fresh exampleFs 0 [("00", ("old.xdr", 7))] 0 0 "present.xdr" [6])
        = [State.WORK_WAITING, State.WORK_SUCCESS] ∧
      mapFind (run exampleEnv pollJobFinishPoll
          (World.fresh exampleFs 0 [("00", ("old.xdr", 7))] 0 0 "present.xdr" [6])).mBuckets
          (exampleEnv.binToHex [6])
        = Option.some (exampleEnv.adoptFileAsBucket 0 "present.xdr" [6] 0 0).1 :=
  matching_file_is_adopted exampleEnv exampleFs 0 [("00", ("old.xdr", 7))] 0 0 "present.xdr"
    [1, 2, 3] [6] rfl rfl

/-- C2: for a readable file with content `F` and an expected digest `D` with
`sha256 F ≠ D`, after every sequence of polls, job runs, completion callbacks
(and a possible destruction) of a new task, and after every prefix of it, the
bucket map and the bucket manager are the initial ones and `adoptFileAsBucket`
was never called; no poll of the sequence returns `WORK_SUCCESS`; once the
outcome is recorded (`mDone`), a poll returns `WORK_FAILURE`; and the standard
run does record the outcome and ends in `WORK_FAILURE`. -/
theorem mismatching_file_is_rejected {σ β : Type} (env : Collaborators σ β) (fs : FileSystem)
    (bm : σ) (M : List (String × β)) (s f : Nat) (file : String) (F : List Byte) (D : uint256)
    (hF : fs file = FileState.file F Option.none) (hD : env.sha256 F ≠ D)
    (acts : List Action) :
    (∀ k, (run env (acts.take k) (World.fresh fs bm M s f file D)).mBuckets = M ∧
        (run env (acts.take k) (World.fresh fs bm M s f file D)).app.bucketManager = bm ∧
        (run env (acts.take k) (World.fresh fs bm M s f file D)).app.adoptCalls = []) ∧
      (∀ r ∈ pollResults env acts (World.fresh fs bm M s f file D), r ≠ State.WORK_SUCCESS) ∧
      (∀ self, (run env acts (World.fresh fs bm M s f file D)).work = Option.some self →
        self.mDone = true →
        (step env Action.poll (run env acts (World.fresh fs bm M s f file D))).2
          = Option.some State.WORK_FAILURE) ∧
      pollResults env pollJobFinishPoll (World.fresh fs bm M s f file D)
        = [State.WORK_WAITING, State.WORK_FAILURE] := by
  have hmis : (verifierJob env fs ⟨file, D⟩).isSet = true :=
    (verifierJob_readable env fs file F D hF).mpr hD
  have hterm : terminalState (verifierJob env fs ⟨file, D⟩) = State.WORK_FAILURE := by
    simp [terminalState, hmis]
  have hc0 := consistent_fresh env fs bm M s f file D
  refine ⟨?_, ?_, ?_, (standard_run_mismatch env fs bm M s f file D hmis).1⟩
  · intro k
    exact untouched_run env fs file D bm M (acts.take k) _ hc0 hmis ⟨rfl, rfl, rfl⟩
  · intro r hr
    rcases pollResults_consistent env fs file D acts _ hc0 r hr with h | h
    · rw [h]; decide
    · rw [h, hterm]; decide
  · intro self hw hd
    have hp := poll_consistent env fs file D _ self (consistent_run env fs file D acts _ hc0) hw
    rw [hp, hd, hterm]
    rfl

theorem mismatching_file_is_rejected_witness :
    (run exampleEnv
        (List.take 8 [Action.poll, Action.poll, Action.background 1, Action.complete 0,
          Action.poll, Action.background 0, Action.complete 0, Action.poll])
        (World.fresh exampleFs 0 [("00", ("old.xdr", 7))] 0 0 "present.xdr" [9])).mBuckets
        = [("00", ("old.xdr", 7))] ∧
      pollResults exampleEnv pollJobFinishPoll
          (World.fresh exampleFs 0 [("00", ("old.xdr", 7))] 0 0 "present.xdr" [9])
        = [State.WORK_WAITING, State.WORK_FAILURE] :=
  have h := mismatching_file_is_rejected exampleEnv exampleFs 0 [("00", ("old.xdr", 7))] 0 0
    "present.xdr" [1, 2, 3] [9] rfl (by decide)
    [Action.poll, Action.poll, Action.background 1, Action.complete 0, Action.poll,
      Action.background 0, Action.complete 0, Action.poll]
  ⟨(h.1 8).1, h.2.2.2⟩

/-- C3 (as stated, refuted): a task for `present.xdr` is done with a matching
digest; two polls in a row call `adoptFileAsBucket` twice, not once. -/
theorem adopt_twice_counterexample :
    exampleDone.work = Option.some
        { mBucketFile := "present.xdr", mHash := [6], mDone := true, mEc := error_code.none } ∧
      error_code.none.isSet = false ∧
      (run exampleEnv (List.replicate 2 Action.poll) exampleDone).app.adoptCalls
        = [("present.xdr", [6]), ("present.xdr", [6])] ∧
      (run exampleEnv (List.replicate 2 Action.poll) exampleDone).app.adoptCalls.length ≠ 1 := by
  decide

/-- C3 (amended): for a task that is done with a matching digest and every
`n`, `n` polls in a row call `adoptFileAsBucket` once per poll, `n` times in
total, each time for the task's file and hash, and every one of them returns
`WORK_SUCCESS`; the call happens exactly once in total when `n = 1`. -/
theorem adopt_once_per_poll {σ β : Type} (env : Collaborators σ β) (w : World σ β)
    (self : VerifyBucketWork) (n : Nat) (hw : w.work = Option.some self)
    (hd : self.mDone = true) (he : self.mEc.isSet = false) :
    (run env (List.replicate n Action.poll) w).app.adoptCalls
        = w.app.adoptCalls ++ List.replicate n (self.mBucketFile, self.mHash) ∧
      (run env (List.replicate n Action.poll) w).app.adoptCalls.length
        = w.app.adoptCalls.length + n ∧
      pollResults env (List.replicate n Action.poll) w = List.replicate n State.WORK_SUCCESS := by
  obtain ⟨h1, h2⟩ := run_polls_matched env self hd he n w hw
  refine ⟨h1, ?_, h2⟩
  rw [h1]
  simp

theorem adopt_once_per_poll_witness :
    (run exampleEnv (List.replicate 3 Action.poll) exampleDone).app.adoptCalls.length
      = exampleDone.app.adoptCalls.length + 3 :=
  (adopt_once_per_poll exampleEnv exampleDone
    { mBucketFile := "present.xdr", mHash := [6], mDone := true, mEc := error_code.none }
    3 rfl rfl rfl).2.1

/-- C4 (as stated, refuted): a new task is polled once and its completion
callback has not run; the second poll posts a second verification job. -/
theorem second_poll_spawns_counterexample :
    (step exampleEnv Action.poll (World.fresh exampleFs 0 [] 0 0 "present.xdr" [6])).1.app.backgroundThread
        = [⟨"present.xdr", [6]⟩] ∧
      (step exampleEnv Action.poll (World.fresh exampleFs 0 [] 0 0 "present.xdr" [6])).1.app.mainThread
        = [] ∧
      (run exampleEnv [Action.poll, Action.poll]
          (World.fresh exampleFs 0 [] 0 0 "present.xdr" [6])).app.backgroundThread
        = [⟨"present.xdr", [6]⟩, ⟨"present.xdr", [6]⟩] ∧
      pollResults exampleEnv [Action.poll, Action.poll]
          (World.fresh exampleFs 0 [] 0 0 "present.xdr" [6])
        = [State.WORK_WAITING, State.WORK_WAITING] := by
  decide

/-- C4 (amended): a poll of a task that is not done (whether or not it was
polled before) returns `WORK_WAITING` and leaves the task, the bucket map, the
bucket manager, both meters, the posted callbacks and the file system as they
were, but it posts one more verification job for the task's file and hash:
every poll before completion starts background work. -/
theorem unfinished_poll_posts_job {σ β : Type} (env : Collaborators σ β) (w : World σ β)
    (self : VerifyBucketWork) (hw : w.work = Option.some self) (hd : self.mDone = false) :
    step env Action.poll w =
      ({ w with
          app := { w.app with
            backgroundThread := w.app.backgroundThread ++ [⟨self.mBucketFile, self.mHash⟩] } },
        Option.some State.WORK_WAITING) := by
  simp [step, hw, onRun_waiting env self w hd, spawnVerifier]

theorem unfinished_poll_posts_job_witness :
    step exampleEnv Action.poll
        (step exampleEnv Action.poll (World.fresh exampleFs 0 [] 0 0 "present.xdr" [6])).1 =
      ({ (step exampleEnv Action.poll (World.fresh exampleFs 0 [] 0 0 "present.xdr" [6])).1 with
          app := { (step exampleEnv Action.poll
              (World.fresh exampleFs 0 [] 0 0 "present.xdr" [6])).1.app with
            backgroundThread :=
              (step exampleEnv Action.poll
                (World.fresh exampleFs 0 [] 0 0 "present.xdr" [6])).1.app.backgroundThread
                ++ [⟨"present.xdr", [6]⟩] } },
        Option.some State.WORK_WAITING) :=
  unfinished_poll_posts_job exampleEnv
    (step exampleEnv Action.poll (World.fresh exampleFs 0 [] 0 0 "present.xdr" [6])).1
    (VerifyBucketWork.new "present.xdr" [6]) rfl rfl

/-- C5 (as stated, refuted): `missing.xdr` cannot be opened and the expected
digest is the hash of the empty byte string; the job reports no error, the
following poll returns `WORK_SUCCESS` and the file is adopted.  Likewise for
`flaky.xdr`, whose first read fails after two bytes: the job hashes nothing
and reports no error for that digest. -/
theorem unopenable_file_counterexample :
    exampleFs "missing.xdr" = FileState.unopenable ∧
      (verifierJob exampleEnv exampleFs ⟨"missing.xdr", exampleEnv.sha256 []⟩).isSet = false ∧
      pollResults exampleEnv pollJobFinishPoll
          (World.fresh exampleFs 0 [] 0 0 "missing.xdr" (exampleEnv.sha256 []))
        = [State.WORK_WAITING, State.WORK_SUCCESS] ∧
      (run exampleEnv pollJobFinishPoll
          (World.fresh exampleFs 0 [] 0 0 "missing.xdr" (exampleEnv.sha256 []))).app.adoptCalls
        = [("missing.xdr", exampleEnv.sha256 [])] ∧
      exampleFs "flaky.xdr" = FileState.file [1, 2, 3] (Option.some 2) ∧
      (verifierJob exampleEnv exampleFs ⟨"flaky.xdr", exampleEnv.sha256 []⟩).isSet = false := by
  have hok : (verifierJob exampleEnv exampleFs ⟨"missing.xdr", exampleEnv.sha256 []⟩).isSet
      = false := by
    rw [isSet_eq_false_iff, verifierJob_isSet]
    simp [exampleFs, FileState.delivered]
  have hflaky : (verifierJob exampleEnv exampleFs ⟨"flaky.xdr", exampleEnv.sha256 []⟩).isSet
      = false := by
    rw [isSet_eq_false_iff, verifierJob_isSet]
    simp [exampleFs, FileState.delivered, bufSize]
  obtain ⟨h1, _, h3, _⟩ :=
    standard_run_match exampleEnv exampleFs 0 [] 0 0 "missing.xdr" (exampleEnv.sha256 []) hok
  exact ⟨rfl, hok, h1, h3, rfl, hflaky⟩

/-- C5 (amended): when the bucket file cannot be opened, or a read fails
before end-of-file, the job hashes the bytes `P` of the reads that completed
before the failure (nothing for a file that cannot be opened; the read that
meets the error hands over nothing, so `P` is the content up to the last
whole buffer of 4096 bytes before the error); for every expected digest `D`
other than the hash of `P` it reports an error, so the following poll returns
`WORK_FAILURE` and nothing is adopted. -/
theorem failed_read_is_rejected {σ β : Type} (env : Collaborators σ β) (fs : FileSystem)
    (bm : σ) (M : List (String × β)) (s f : Nat) (file : String) (P : List Byte) (D : uint256)
    (hfail : (fs file = FileState.unopenable ∧ P = []) ∨
      ∃ content k, fs file = FileState.file content (Option.some k) ∧ k < content.length ∧
        P = content.take (k / bufSize * bufSize))
    (hD : env.sha256 P ≠ D) :
    (verifierJob env fs ⟨file, D⟩).isSet = true ∧
      pollResults env pollJobFinishPoll (World.fresh fs bm M s f file D)
        = [State.WORK_WAITING, State.WORK_FAILURE] ∧
      (run env pollJobFinishPoll (World.fresh fs bm M s f file D)).mBuckets = M ∧
      (run env pollJobFinishPoll (World.fresh fs bm M s f file D)).app.adoptCalls = [] := by
  have hP : (fs file).delivered bufSize = P := by
    rcases hfail with ⟨h1, h2⟩ | ⟨content, k, h1, hk, h2⟩
    · rw [h1, h2]; rfl
    · rw [h1, h2]; simp [FileState.delivered, hk]
  have hmis : (verifierJob env fs ⟨file, D⟩).isSet = true := by
    rw [verifierJob_isSet]
    simpa [hP] using hD
  obtain ⟨h1, h2, h3, _⟩ := standard_run_mismatch env fs bm M s f file D hmis
  exact ⟨hmis, h1, h2, h3⟩

theorem failed_read_is_rejected_witness :
    (verifierJob exampleEnv exampleFs ⟨"flaky.xdr", [3]⟩).isSet = true ∧
      pollResults exampleEnv pollJobFinishPoll
          (World.fresh exampleFs 0 [("00", ("old.xdr", 7))] 0 0 "flaky.xdr" [3])
        = [State.WORK_WAITING, State.WORK_FAILURE] ∧
      (run exampleEnv pollJobFinishPoll
          (World.fresh exampleFs 0 [("00", ("old.xdr", 7))] 0 0 "flaky.xdr" [3])).mBuckets
        = [("00", ("old.xdr", 7))] ∧
      (run exampleEnv pollJobFinishPoll
          (World.fresh exampleFs 0 [("00", ("old.xdr", 7))] 0 0 "flaky.xdr" [3])).app.adoptCalls
        = [] :=
  failed_read_is_rejected exampleEnv exampleFs 0 [("00", ("old.xdr", 7))] 0 0 "flaky.xdr"
    [] [3] (Or.inr ⟨[1, 2, 3], 2, rfl, by decide, by decide⟩) (by decide)

/-- C6 (as stated, refuted): two polls of a new task for `present.xdr` post
two jobs; the first job finds the digest matching and the poll after its
callback returns `WORK_SUCCESS`; the file is then removed, the second job
fails to verify, its callback overwrites the recorded outcome and the next
poll returns `WORK_FAILURE`. -/
theorem terminal_result_flips_counterexample :
    pollResultsEvents exampleEnv exampleFlip
        (World.fresh exampleFs 0 [] 0 0 "present.xdr" [6])
      = [State.WORK_WAITING, State.WORK_WAITING, State.WORK_SUCCESS, State.WORK_FAILURE] := by
  simp [exampleFlip, pollResultsEvents, stepEvent, step, World.fresh, VerifyBucketWork.new,
    onRun, spawnVerifier, runVerifier, finishCallback, adoptBucket, verifierJob_eq,
    FileState.delivered, exampleFs, exampleEnv, byteSum, error_code.isSet, error_code.none,
    io_error]

/-- C6 (amended): in every sequence of polls, job runs, completion callbacks
(and a possible destruction) of a new task during which no file changes, once
a poll has returned `WORK_SUCCESS` or `WORK_FAILURE` every later poll returns
that same value.  When files may change in between, no later poll returns
`WORK_WAITING`, but a callback that runs later overwrites the recorded
outcome: the poll after a callback on a live task returns the terminal value
of the outcome that callback carried. -/
theorem terminal_result_follows_last_callback {σ β : Type} (env : Collaborators σ β)
    (fs : FileSystem) (bm : σ) (M : List (String × β)) (s f : Nat) (file : String) (D : uint256)
    (acts : List Action) (evs : List Event) :
    List.Pairwise (fun earlier later => earlier ≠ State.WORK_WAITING → later = earlier)
        (pollResults env acts (World.fresh fs bm M s f file D)) ∧
      List.Pairwise
        (fun earlier later => earlier ≠ State.WORK_WAITING → later ≠ State.WORK_WAITING)
        (pollResultsEvents env evs (World.fresh fs bm M s f file D)) ∧
      ∀ (w : World σ β) (self : VerifyBucketWork) (cb : FinishCallback),
        w.work = Option.some self →
          (step env Action.poll (finishCallback cb w)).2 = Option.some (terminalState cb.ec) :=
  ⟨pollResults_stable env fs file D acts _ (consistent_fresh env fs bm M s f file D),
    pollResultsEvents_no_waiting env evs _,
    fun w self cb hw => poll_after_callback env w self cb hw⟩

theorem terminal_result_follows_last_callback_witness :
    exampleDone.work = Option.some
        { mBucketFile := "present.xdr", mHash := [6], mDone := true, mEc := error_code.none } ∧
      (step exampleEnv Action.poll exampleDone).2 = Option.some State.WORK_SUCCESS ∧
      (step exampleEnv Action.poll (finishCallback ⟨io_error⟩ exampleDone)).2
        = Option.some (terminalState io_error) ∧
      terminalState io_error = State.WORK_FAILURE :=
  ⟨rfl, by decide,
    (terminal_result_follows_last_callback exampleEnv exampleFs 0 [] 0 0 "present.xdr" [6]
      [] []).2.2 exampleDone
      { mBucketFile := "present.xdr", mHash := [6], mDone := true, mEc := error_code.none }
      ⟨io_error⟩ rfl,
    by decide⟩

/-- C7: when the task no longer exists, the completion callback returns the
world as it found it, whatever outcome it carries; running it as a step only
removes it from the posted callbacks: no task state is written, no wake-up is
issued, and the bucket map, the bucket manager and the meters are unchanged. -/
theorem callback_without_task_is_noop {σ β : Type} (env : Collaborators σ β) (w : World σ β)
    (cb : FinishCallback) (i : Nat) (hw : w.work = Option.none) :
    finishCallback cb w = w ∧
      step env (Action.complete i) w =
        ({ w with app := { w.app with mainThread := w.app.mainThread.eraseIdx i } },
          Option.none) := by
  refine ⟨by simp [finishCallback, hw], ?_⟩
  cases hc : w.app.mainThread[i]? with
  | none =>
    have hlen : w.app.mainThread.length ≤ i := by simpa using hc
    simp [step, hc, List.eraseIdx_of_length_le hlen]
  | some c => simp [step, hc, finishCallback, hw]

theorem callback_without_task_is_noop_witness :
    finishCallback ⟨io_error⟩ (exampleOrphan io_error) = exampleOrphan io_error ∧
      step exampleEnv (Action.complete 0) (exampleOrphan io_error) =
        ({ exampleOrphan io_error with
            app := { (exampleOrphan io_error).app with
              mainThread := (exampleOrphan io_error).app.mainThread.eraseIdx 0 } },
          Option.none) :=
  callback_without_task_is_noop exampleEnv (exampleOrphan io_error) ⟨io_error⟩ 0 rfl

/-- C8: over the run "poll; background job; completion callback; poll" of a
new task on a readable file with content `F`: when `sha256 F = D` the success
meter is marked once and the failure meter not at all; when `sha256 F ≠ D`
the failure meter is marked once and the success meter not at all; and a poll
that returns `WORK_WAITING` marks neither meter. -/
theorem meters_marked_once {σ β : Type} (env : Collaborators σ β) (fs : FileSystem)
    (bm : σ) (M : List (String × β)) (s f : Nat) (file : String) (F : List Byte) (D : uint256)
    (hF : fs file = FileState.file F Option.none) :
    (env.sha256 F = D →
        (run env pollJobFinishPoll (World.fresh fs bm M s f file D)).app.verifyBucketSuccess
            = s + 1 ∧
          (run env pollJobFinishPoll (World.fresh fs bm M s f file D)).app.verifyBucketFailure
            = f) ∧
      (env.sha256 F ≠ D →
        (run env pollJobFinishPoll (World.fresh fs bm M s f file D)).app.verifyBucketFailure
            = f + 1 ∧
          (run env pollJobFinishPoll (World.fresh fs bm M s f file D)).app.verifyBucketSuccess
            = s) ∧
      (∀ (self : VerifyBucketWork) (w : World σ β),
        (onRun env self w).1 = State.WORK_WAITING →
          (onRun env self w).2.app.verifyBucketSuccess = w.app.verifyBucketSuccess ∧
            (onRun env self w).2.app.verifyBucketFailure = w.app.verifyBucketFailure) := by
  refine ⟨?_, ?_, ?_⟩
  · intro hD
    have hok : (verifierJob env fs ⟨file, D⟩).isSet = false := by
      rw [isSet_eq_false_iff, verifierJob_readable env fs file F D hF]
      simpa using hD
    obtain ⟨_, _, _, h4, h5⟩ := standard_run_match env fs bm M s f file D hok
    exact ⟨h4, h5⟩
  · intro hD
    have hmis : (verifierJob env fs ⟨file, D⟩).isSet = true :=
      (verifierJob_readable env fs file F D hF).mpr hD
    obtain ⟨_, _, _, h4, h5⟩ := standard_run_mismatch env fs bm M s f file D hmis
    exact ⟨h5, h4⟩
  · intro self w hres
    cases hd : self.mDone with
    | false => simp [onRun_waiting env self w hd, spawnVerifier]
    | true =>
      cases he : self.mEc.isSet with
      | false => simp [onRun_success env self w hd he] at hres
      | true => simp [onRun_failure env self w hd he] at hres

theorem meters_marked_once_witness :
    (run exampleEnv pollJobFinishPoll
        (World.fresh exampleFs 0 [] 0 0 "empty.xdr" [0])).app.verifyBucketSuccess = 0 + 1 ∧
      (run exampleEnv pollJobFinishPoll
        (World.fresh exampleFs 0 [] 0 0 "empty.xdr" [0])).app.verifyBucketFailure = 0 :=
  (meters_marked_once exampleEnv exampleFs 0 [] 0 0 "empty.xdr" [] [0] rfl).1 rfl

/-- C9: for a readable file with content `F` and every buffer size `n > 0`,
the slices the read loop adds to the hasher (the final empty one included)
concatenate to exactly `F`; so the digest the job obtains is the one-shot hash
of `F` and equals the digest obtained with the buffer of 4096 bytes of the
code. -/
theorem chunked_hash_is_one_shot_hash (sha256 : List Byte → uint256) (n : Nat) (hn : 0 < n)
    (fs : FileSystem) (filename : String) (F : List Byte)
    (hF : fs filename = FileState.file F Option.none) :
    (readLoop n hn (ifstream.openFile fs filename) SHA256.create).2.added.flatten = F ∧
      hashFile sha256 n hn fs filename = sha256 F ∧
      hashFile sha256 n hn fs filename = hashFile sha256 bufSize (by decide) fs filename := by
  have hd : ∀ m, (fs filename).delivered m = F := by
    intro m
    rw [hF]
    rfl
  refine ⟨?_, ?_, ?_⟩
  · rw [readLoop_openFile, hd]
  · rw [hashFile_eq, hd]
  · rw [hashFile_eq, hashFile_eq, hd, hd]

theorem chunked_hash_is_one_shot_hash_witness :
    (readLoop 2 (by decide) (ifstream.openFile exampleFs "present.xdr")
        SHA256.create).2.added.flatten = [1, 2, 3] ∧
      hashFile byteSum 2 (by decide) exampleFs "present.xdr" = byteSum [1, 2, 3] ∧
      hashFile byteSum 2 (by decide) exampleFs "present.xdr"
        = hashFile byteSum bufSize (by decide) exampleFs "present.xdr" :=
  chunked_hash_is_one_shot_hash byteSum 2 (by decide) exampleFs "present.xdr" [1, 2, 3] rfl

/-- C10: for every bucket map and every task that is done with a matching
digest, the poll binds the key `binToHex mHash` to the handle returned by
`adoptFileAsBucket`, whether or not the key was present, and every other key
keeps its presence and its value. -/
theorem adoption_changes_one_key {σ β : Type} (env : Collaborators σ β) (w : World σ β)
    (self : VerifyBucketWork) (hd : self.mDone = true) (he : self.mEc.isSet = false) :
    mapFind (onRun env self w).2.mBuckets (env.binToHex self.mHash)
        = Option.some
          (env.adoptFileAsBucket w.app.bucketManager self.mBucketFile self.mHash 0 0).1 ∧
      ∀ key, key ≠ env.binToHex self.mHash →
        mapFind (onRun env self w).2.mBuckets key = mapFind w.mBuckets key := by
  rw [onRun_success env self w hd he]
  exact ⟨mapFind_mapAssign_same _ _ _, fun key hk => mapFind_mapAssign_other _ _ _ _ hk⟩

theorem adoption_changes_one_key_witness :
    mapFind (onRun exampleEnv
          { mBucketFile := "present.xdr", mHash := [6], mDone := true, mEc := error_code.none }
          exampleDone).2.mBuckets (exampleEnv.binToHex [6])
        = Option.some (exampleEnv.adoptFileAsBucket 0 "present.xdr" [6] 0 0).1 ∧
      mapFind (onRun exampleEnv
          { mBucketFile := "present.xdr", mHash := [6], mDone := true, mEc := error_code.none }
          exampleDone).2.mBuckets "ff"
        = mapFind exampleDone.mBuckets "ff" :=
  have h := adoption_changes_one_key exampleEnv exampleDone
    { mBucketFile := "present.xdr", mHash := [6], mDone := true, mEc := error_code.none }
    rfl rfl
  ⟨h.1, h.2 "ff" (by decide)⟩

end stellar
